import Mathlib

/-!
Shallow embedding of the halloy IRC session protocol engine, covering
`src/data/src/client.rs` (session state machine: membership tracking,
label/batch reply correlation, reroute, echo suppression) and
`src/data/src/stream.rs` (connection supervisor: capability negotiation,
reconnect timing).

Rust collections are modelled as association lists:
`BTreeMap` as a key-sorted association list, `HashMap` as an association
list with replace-or-append insertion, and `HashSet<User>` as a list of
users with membership keyed by the user's nickname identity.
-/

namespace Halloy

/-- IRCv3 message tag (`irc::proto::Tag`): a key with an optional value. -/
structure Tag where
  key : String
  value : Option String
deriving DecidableEq, Repr

/-- Message source, per the wire codec: either a server name or a
nickname/username/hostname triple. -/
inductive Pfx where
  | serverName (name : String)
  | nickname (nick : String) (user : String) (host : String)
deriving DecidableEq, Repr

/-- The numeric replies matched by `client.rs` (`irc::proto::command::Numeric`),
plus a representative numeric that is in none of the matched sets. -/
inductive Numeric where
  | RPL_WELCOME
  | RPL_NAMREPLY
  | RPL_ENDOFWHO
  | RPL_ENDOFWHOIS
  | RPL_ENDOFWHOWAS
  | ERR_NOSUCHNICK
  | ERR_NOSUCHSERVER
  | ERR_NONICKNAMEGIVEN
  | ERR_WASNOSUCHNICK
  | ERR_NEEDMOREPARAMS
  | RPL_WHOISUSER
deriving DecidableEq, Repr

/-- The command variants `client.rs` dispatches on (`irc::proto::Command`).
Variants not matched there are collapsed into `Other`. -/
inductive Command where
  | BATCH (param : String) (rest : List String)
  | NICK (nick : String)
  | QUIT (comment : Option String)
  | PART (channel : String) (comment : Option String)
  | JOIN (channel : String) (keys : Option String)
  | PRIVMSG (target : String) (text : String)
  | NOTICE (target : String) (text : String)
  | MODE (target : String) (modes : Option String) (args : Option (List String))
  | CAP (target : Option String) (sub : String) (p1 : Option String) (p2 : Option String)
  | WHO (mask : Option String)
  | WHOIS (target : Option String) (masks : String)
  | WHOWAS (nick : String) (count : Option String)
  | Numeric (num : Numeric) (args : List String)
  | Unknown (cmd : String) (args : List String)
  | Other (cmd : String) (args : List String)
deriving DecidableEq, Repr

/-- The decoded message consumed by the session state machine
(`message::Encoded`, a thin wrapper over the proto message): tags, an
optional source, and a command. -/
structure Encoded where
  tags : List Tag
  pfx : Option Pfx
  command : Command
deriving DecidableEq, Repr

/-- Modelled from the spec: per-channel access levels carried by a user
(`src/data/src/user.rs` is not in the tree; §3 "optional access-level
flags ... owner/op/voice/etc."). -/
inductive AccessLevel where
  | Owner
  | Admin
  | Oper
  | HalfOp
  | Voice
deriving DecidableEq, Repr

/-- Modelled from the spec: `User` (`src/data/src/user.rs` is not in the
tree). A nickname, optional username/hostname, and channel-scoped access
levels; the nickname is the comparable identity (§3). -/
structure User where
  nickname : String
  username : Option String
  hostname : Option String
  access_levels : List AccessLevel
deriving DecidableEq, Repr

/-- Lower-casing over the character list (the behaviour of
`String::to_lowercase` on the ASCII nicknames at issue). -/
def lowerStr (s : String) : String :=
  String.mk (s.data.map Char.toLower)

/-- Modelled from the spec: nickname identity comparison is
case-insensitive (§3 "nickname (case-insensitive-comparable identity)"). -/
def nickEq (a b : String) : Bool :=
  lowerStr a == lowerStr b

/-- Constructor `User::new(nick, username, hostname)` as used by
`message.user()` (`message.rs`): a user with no access levels. -/
def User.new (nick : String) (username hostname : Option String) : User :=
  ⟨nick, username, hostname, []⟩

/-- Helper from `message.rs`: empty strings in the source become `None`. -/
def notEmpty (s : String) : Option String :=
  if s.data.isEmpty then none else some s

/-- The prefix-to-user extraction of `message.rs` (`fn user`): only a
nickname-shaped source yields a user. -/
def Encoded.user (m : Encoded) : Option User :=
  match m.pfx with
  | some (.nickname n u h) => some (User.new n (notEmpty u) (notEmpty h))
  | _ => none

/-- Renaming a user (`User::with_nickname`): everything but the nickname,
in particular the access levels, is preserved. -/
def User.with_nickname (u : User) (nick : String) : User :=
  { u with nickname := nick }

/-- Modelled from the spec: grant/revoke direction of a channel mode
(`src/data/src/mode.rs` is not in the tree; §4.2 "names an operation
(grant/revoke)"). -/
inductive ModeOp where
  | add
  | remove
deriving DecidableEq, Repr

/-- Modelled from the spec: `User::update_access_level` grants or revokes
one access level in place (§4.2 "update that member's access level"). -/
def User.update_access_level (u : User) (op : ModeOp) (l : AccessLevel) : User :=
  match op with
  | .add =>
    if u.access_levels.contains l then u
    else { u with access_levels := u.access_levels ++ [l] }
  | .remove => { u with access_levels := u.access_levels.filter (· ≠ l) }

/-- Modelled from the spec: one parsed channel mode: an optional
operation, the access level it names, and its optional argument. -/
structure ParsedMode where
  op : Option ModeOp
  value : AccessLevel
  arg : Option String
deriving DecidableEq, Repr

/-- Modelled from the spec: the access level named by a mode character,
if any. -/
def modeChar (c : Char) : Option AccessLevel :=
  if c = 'q' then some .Owner
  else if c = 'a' then some .Admin
  else if c = 'o' then some .Oper
  else if c = 'h' then some .HalfOp
  else if c = 'v' then some .Voice
  else none

/-- Modelled from the spec: walk the mode string, tracking the current
grant/revoke sign and consuming one argument per access-level mode
(`src/data/src/mode.rs` is not in the tree; §4.2 "parse the mode string
against its arguments"). -/
def modeParseAux (op : Option ModeOp) : List Char → List String → List ParsedMode
  | [], _ => []
  | c :: rest, args =>
    if c = '+' then modeParseAux (some .add) rest args
    else if c = '-' then modeParseAux (some .remove) rest args
    else
      match modeChar c with
      | some lvl => ⟨op, lvl, args.head?⟩ :: modeParseAux op rest (args.drop 1)
      | none => modeParseAux op rest args

/-- Modelled from the spec: `mode::parse::<mode::Channel>(modes, args)`. -/
def mode_parse (modes : String) (args : Option (List String)) : List ParsedMode :=
  modeParseAux none modes.data (args.getD [])

/-- Modelled from the spec: `proto::is_channel` (the proto crate is not in
the tree beyond `format.rs`); channel names start with a channel sigil. -/
def is_channel (s : String) : Bool :=
  match s.data with
  | c :: _ => c = '#' || c = '&'
  | [] => false

/-- Modelled from the spec: a UI buffer, the unit reply routing targets
(`src/data/src/buffer.rs` is not in the tree; §3 "which UI buffer it
targets"). -/
inductive Buffer where
  | server (s : String)
  | channel (s : String) (chan : String)
  | query (s : String) (nick : String)
deriving DecidableEq, Repr

/-- Modelled from the spec: the display target attached to a rerouted
message (`message::Target`); it records the buffer the message is
addressed at. -/
structure Target where
  buffer : Buffer
deriving DecidableEq, Repr

/-- Modelled from the spec: `Buffer::server_message_target` produces the
target addressing this buffer. -/
def Buffer.server_message_target (b : Buffer) (_source : Option Unit) : Target :=
  ⟨b⟩

/-- Reply-attribution context (`Context` in `client.rs`): the buffer a
send originated from, with WHOIS distinguished. -/
inductive Context where
  | Buffer (b : Buffer)
  | Whois (b : Buffer)
deriving DecidableEq, Repr

/-- Constructor `Context::new`: WHOIS sends get the distinguished kind. -/
def Context.new (m : Encoded) (b : Halloy.Buffer) : Context :=
  match m.command with
  | .WHOIS _ _ => .Whois b
  | _ => .Buffer b

/-- Predicate `Context::is_whois`. -/
def Context.isWhois : Context → Bool
  | .Whois _ => true
  | .Buffer _ => false

/-- Projection `Context::buffer`. -/
def Context.buffer : Context → Halloy.Buffer
  | .Buffer b => b
  | .Whois b => b

/-- Broadcast payloads (`Brodcast` in `client.rs`, the source's own
spelling). -/
inductive Brodcast where
  | Quit (user : User) (comment : Option String) (channels : List String)
  | Nickname (old_user : User) (new_nick : String) (ourself : Bool)
      (channels : List String)
deriving DecidableEq, Repr

/-- Derived events emitted by the session state machine (`Event`). -/
inductive Event where
  | Single (message : Encoded) (nick : String)
  | WithTarget (message : Encoded) (nick : String) (target : Target)
  | Brodcast (b : Brodcast)
deriving DecidableEq, Repr

/-- An open IRC batch (`Batch` in `client.rs`): optional inherited
context plus the accumulated events. -/
structure Batch where
  context : Option Context
  events : List Event
deriving DecidableEq, Repr

/-- Constructor `Batch::new`. -/
def Batch.new (context : Option Context) : Batch :=
  { context := context, events := [] }

/-- The per-server session state (`Client` in `client.rs`). The sender
handle (an mpsc channel) and the full config are omitted; only the
configured nickname is observable through this state machine. -/
structure Client where
  config_nickname : String
  resolved_nick : Option String
  chanmap : List (String × List User)
  channels : List String
  users : List (String × List User)
  labels : List (String × Context)
  batches : List (String × Batch)
  reroute_responses_to : Option Buffer
  supports_labels : Bool
deriving DecidableEq, Repr

/-- Constructor `Client::new`. -/
def Client.new (config_nickname : String) : Client :=
  { config_nickname := config_nickname
    resolved_nick := none
    chanmap := []
    channels := []
    users := []
    labels := []
    batches := []
    reroute_responses_to := none
    supports_labels := false }

/-- Accessor `Client::nickname`: the resolved nickname, falling back to
the configured one. -/
def Client.nickname (c : Client) : String :=
  c.resolved_nick.getD c.config_nickname

section AssocOps

variable {α : Type}

/-- Map lookup shared by the `HashMap`/`BTreeMap` models (`get`). -/
def assocGet (k : String) : List (String × α) → Option α
  | [] => none
  | (k', v) :: rest => if k = k' then some v else assocGet k rest

/-- Map removal (`HashMap::remove` / `BTreeMap::remove`): drops the entry
for the key, returning its value. -/
def assocRemove (k : String) : List (String × α) → Option α × List (String × α)
  | [] => (none, [])
  | (k', v) :: rest =>
    if k = k' then (some v, rest)
    else
      let r := assocRemove k rest
      (r.1, (k', v) :: r.2)

/-- Unordered-map insertion (`HashMap::insert`): replace the entry in
place, or append a fresh one. -/
def mapInsert (k : String) (v : α) : List (String × α) → List (String × α)
  | [] => [(k, v)]
  | (k', v') :: rest =>
    if k = k' then (k, v) :: rest else (k', v') :: mapInsert k v rest

/-- In-place update of the entry under a key (`get_mut` followed by a
mutation). Absent keys leave the map unchanged. -/
def mapUpdate (k : String) (f : α → α) : List (String × α) → List (String × α)
  | [] => []
  | (k', v) :: rest =>
    if k = k' then (k, f v) :: rest else (k', v) :: mapUpdate k f rest

/-- Ordered-map insertion (`BTreeMap::insert` on the chanmap): keeps the
keys sorted and replaces the value of an existing key. -/
def chanInsert (k : String) (v : α) : List (String × α) → List (String × α)
  | [] => [(k, v)]
  | (k', v') :: rest =>
    if k = k' then (k, v) :: rest
    else if k < k' then (k, v) :: (k', v') :: rest
    else (k', v') :: chanInsert k v rest

end AssocOps

/-- Set removal on a membership set (`HashSet::remove`): drops the first
user with the given user's nickname identity. -/
def setRemove (u : User) : List User → List User
  | [] => []
  | v :: rest => if nickEq v.nickname u.nickname then rest else v :: setRemove u rest

/-- Set extraction (`HashSet::take`): removes and returns the stored user
with the given user's nickname identity. -/
def setTake (u : User) : List User → Option User × List User
  | [] => (none, [])
  | v :: rest =>
    if nickEq v.nickname u.nickname then (some v, rest)
    else
      let r := setTake u rest
      (r.1, v :: r.2)

/-- Set insertion (`HashSet::insert`): a no-op when a user with the same
nickname identity is already stored. -/
def setInsert (u : User) (s : List User) : List User :=
  if s.any (fun v => nickEq v.nickname u.nickname) then s else s ++ [u]

/-- Tag extraction (`remove_tag` in `client.rs`): removes the first tag
with the key and yields its (optional) value. -/
def remove_tag (key : String) : List Tag → Option String × List Tag
  | [] => (none, [])
  | t :: rest =>
    if t.key = key then (t.value, rest)
    else
      let r := remove_tag key rest
      (r.1, t :: r.2)

/-- Commands that open a reroute window (`start_reroute`). -/
def start_reroute : Command → Bool
  | .WHO _ => true
  | .WHOIS _ _ => true
  | .WHOWAS _ _ => true
  | _ => false

/-- Terminal numerics that close a reroute window (`stop_reroute`). -/
def stop_reroute : Command → Bool
  | .Numeric n _ =>
    match n with
    | .RPL_ENDOFWHO => true
    | .RPL_ENDOFWHOIS => true
    | .RPL_ENDOFWHOWAS => true
    | .ERR_NOSUCHNICK => true
    | .ERR_NOSUCHSERVER => true
    | .ERR_NONICKNAMEGIVEN => true
    | .ERR_WASNOSUCHNICK => true
    | .ERR_NEEDMOREPARAMS => true
    | _ => false
  | _ => false

/-- Accumulator recursion for `splitSp`, keeping the current piece in
reverse. -/
def splitSpAux : List Char → List Char → List String
  | [], cur => [String.mk cur.reverse]
  | ch :: rest, cur =>
    if ch = ' ' then String.mk cur.reverse :: splitSpAux rest []
    else splitSpAux rest (ch :: cur)

/-- Rust's `str::split(' ')` as used on capability strings and name
replies: splits at every space, keeping empty pieces. -/
def splitSp (s : String) : List String :=
  splitSpAux s.data []

/-- Modelled from the spec: `User::try_from(&str)` on a NAMES entry
(`src/data/src/user.rs` is not in the tree): strip leading access-level
sigils, then take the remainder as the nickname. -/
def sigil (c : Char) : Option AccessLevel :=
  if c = '~' then some .Owner
  else if c = '&' then some .Admin
  else if c = '@' then some .Oper
  else if c = '%' then some .HalfOp
  else if c = '+' then some .Voice
  else none

/-- Modelled from the spec: sigil-stripping loop of `User::try_from`. -/
def tryFromAux (levels : List AccessLevel) : List Char → Option User
  | [] => none
  | ch :: rest =>
    match sigil ch with
    | some l => tryFromAux (levels ++ [l]) rest
    | none => some ⟨String.mk (ch :: rest), none, none, levels⟩

/-- Modelled from the spec: `User::try_from` used by the NAMES-reply
arm. -/
def User.try_from (s : String) : Option User :=
  tryFromAux [] s.data

/-- The per-mode update loop of the channel MODE arm (`client.rs` lines
312-322): modes that carry both an operation and an argument update the
named member's access level in place. -/
def applyModes (parsed : List ParsedMode) (list : List User) : List User :=
  parsed.foldl
    (fun acc m =>
      match m.op, m.arg with
      | some op, some nickArg =>
        let r := setTake (User.new nickArg none none) acc
        match r.1 with
        | some u => setInsert (u.update_access_level op m.value) r.2
        | none => acc
      | _, _ => acc)
    list

/-- Lexicographic character-list comparison (code-point order), the total
order underlying the cached user-list sort. -/
def charsLe : List Char → List Char → Bool
  | [], _ => true
  | _ :: _, [] => false
  | a :: as, b :: bs =>
    if a.toNat < b.toNat then true
    else if b.toNat < a.toNat then false
    else charsLe as bs

/-- Modelled from the spec: the nickname order used to sort cached user
lists (`src/data/src/user.rs` with its `Ord` instance is not in the
tree). -/
def nickLe (a b : String) : Bool :=
  charsLe a.data b.data

/-- Insertion sort step for the cached per-channel user lists; the sort
order is by nickname (modelled from the spec's "per-channel sorted user
list"). -/
def insertSorted (u : User) : List User → List User
  | [] => [u]
  | v :: rest =>
    if nickLe u.nickname v.nickname then u :: v :: rest else v :: insertSorted u rest

/-- The `users.iter().sorted()` projection used by `Client::sync`. -/
def sortUsers (l : List User) : List User :=
  l.foldr insertSorted []

/-- The cached flattened view recomputation (`Client::sync`): channel key
list and per-channel sorted user snapshots, both derived from the
chanmap. -/
def Client.sync (c : Client) : Client :=
  { c with
    channels := c.chanmap.map Prod.fst
    users := c.chanmap.map (fun p => (p.1, sortUsers p.2)) }

/-- Cached per-channel user list accessor (`Client::users`). -/
def Client.users_of (c : Client) (channel : String) : List User :=
  (assocGet channel c.users).getD []

/-- Cached membership query (`Client::user_channels`): the cached channels
whose cached user list contains the nickname. -/
def Client.user_channels (c : Client) (nick : String) : List String :=
  c.channels.filter fun channel =>
    (c.users_of channel).any fun u => nickEq u.nickname nick

/-- The per-channel rewrite of the NICK arm (`client.rs` lines 254-258):
take the old user's entry out of the set and re-insert it under the new
nickname; sets without the old user are untouched. -/
def renameUser (old_user : User) (nick : String) (list : List User) : List User :=
  let r := setTake old_user list
  match r.1 with
  | some u => setInsert (u.with_nickname nick) r.2
  | none => list

/-- Context resolution at the top of `Client::handle` (lines 148-160): an
explicit parent context wins; otherwise the label's registered context is
consumed from the pending-labels map; otherwise the open batch named by
the batch tag donates its context. Returns the resolved context and the
updated pending-labels map. -/
def resolve_context (parent_context : Option Context)
    (label_tag batch_tag : Option String)
    (labels : List (String × Context)) (batches : List (String × Batch)) :
    Option Context × List (String × Context) :=
  let fromBatch : Option Context :=
    batch_tag.bind fun b => (assocGet b batches).bind fun batch => batch.context
  match parent_context with
  | some ctx => (some ctx, labels)
  | none =>
    match label_tag with
    | some l =>
      let r := assocRemove l labels
      match r.1 with
      | some ctx => (some ctx, r.2)
      | none => (fromBatch, r.2)
    | none => (fromBatch, labels)

/-- Dispatch arms of `Client::handle` below the two batch-related arms
(the whois-context arm through the catch-all `Single` emission). The
state passed in already has the pending-labels map updated by context
resolution. -/
def Client.handleRest (c : Client) (msg : Encoded) (context : Option Context) :
    Client × Option (List Event) :=
  if (context.map Context.isWhois).getD false then
    match context with
    | some ctx =>
      (c, some [.WithTarget msg c.nickname (ctx.buffer.server_message_target none)])
    | none => (c, some [.Single msg c.nickname])
  else
    match msg.command with
    | .Numeric num args =>
      match c.reroute_responses_to with
      | some buf =>
        (c, some [.WithTarget msg c.nickname (buf.server_message_target none)])
      | none =>
        match num with
        | .RPL_WELCOME =>
          match args.head? with
          | some nick =>
            let c' := { c with resolved_nick := some nick }
            (c', some [.Single msg c'.nickname])
          | none => (c, some [.Single msg c.nickname])
        | .RPL_NAMREPLY =>
          if args.length > 3 then
            match assocGet (args.getD 2 "") c.chanmap with
            | some _ =>
              let insertAll := fun (list : List User) =>
                (splitSp (args.getD 3 "")).foldl
                  (fun acc w =>
                    match User.try_from w with
                    | some u => setInsert u acc
                    | none => acc) list
              let c' := { c with chanmap := mapUpdate (args.getD 2 "") insertAll c.chanmap }
              (c', some [.Single msg c'.nickname])
            | none => (c, some [.Single msg c.nickname])
          else (c, some [.Single msg c.nickname])
        | _ => (c, some [.Single msg c.nickname])
    | .Unknown _ _ =>
      match c.reroute_responses_to with
      | some buf =>
        (c, some [.WithTarget msg c.nickname (buf.server_message_target none)])
      | none => (c, some [.Single msg c.nickname])
    | .CAP _ sub a b =>
      if sub = "ACK" then
        match (if b.isNone then a else b) with
        | none => (c, none)
        | some cap_str =>
          let caps := splitSp cap_str
          let c' :=
            if caps.contains "labeled-response" then { c with supports_labels := true }
            else c
          (c', some [.Single msg c'.nickname])
      else (c, some [.Single msg c.nickname])
    | .PRIVMSG _ _ =>
      match msg.user with
      | some user =>
        if nickEq user.nickname c.nickname && context.isSome then (c, none)
        else (c, some [.Single msg c.nickname])
      | none => (c, some [.Single msg c.nickname])
    | .NOTICE _ _ =>
      match msg.user with
      | some user =>
        if nickEq user.nickname c.nickname && context.isSome then (c, none)
        else (c, some [.Single msg c.nickname])
      | none => (c, some [.Single msg c.nickname])
    | .NICK nick =>
      match msg.user with
      | none => (c, none)
      | some old_user =>
        let ourself := nickEq c.nickname old_user.nickname
        let c1 := if ourself then { c with resolved_nick := some nick } else c
        let c2 :=
          { c1 with
            chanmap := c1.chanmap.map fun p => (p.1, renameUser old_user nick p.2) }
        let channels := c2.user_channels old_user.nickname
        (c2, some [.Brodcast (.Nickname old_user nick ourself channels)])
    | .QUIT comment =>
      match msg.user with
      | none => (c, none)
      | some user =>
        let c1 := { c with chanmap := c.chanmap.map fun p => (p.1, setRemove user p.2) }
        (c1, some [.Brodcast (.Quit user comment (c1.user_channels user.nickname))])
    | .PART channel _ =>
      match msg.user with
      | none => (c, none)
      | some user =>
        let c1 :=
          if nickEq user.nickname c.nickname then
            { c with chanmap := (assocRemove channel c.chanmap).2 }
          else
            match assocGet channel c.chanmap with
            | some _ => { c with chanmap := mapUpdate channel (setRemove user) c.chanmap }
            | none => c
        (c1, some [.Single msg c1.nickname])
    | .JOIN channel _ =>
      match msg.user with
      | none => (c, none)
      | some user =>
        let c1 :=
          if nickEq user.nickname c.nickname then
            { c with chanmap := chanInsert channel [] c.chanmap }
          else
            match assocGet channel c.chanmap with
            | some _ => { c with chanmap := mapUpdate channel (setInsert user) c.chanmap }
            | none => c
        (c1, some [.Single msg c1.nickname])
    | .MODE target modes args =>
      match modes with
      | some modestr =>
        if is_channel target then
          let parsed := mode_parse modestr args
          match assocGet target c.chanmap with
          | some _ =>
            let c' := { c with chanmap := mapUpdate target (applyModes parsed) c.chanmap }
            (c', some [.Single msg c'.nickname])
          | none => (c, some [.Single msg c.nickname])
        else (c, some [.Single msg c.nickname])
      | none => (c, some [.Single msg c.nickname])
    | _ => (c, some [.Single msg c.nickname])

/-- The recursive body of `Client::handle`, with an explicit recursion
bound. Each recursive call (the arm for a non-`BATCH` command carrying a
`batch` tag) strips that tag first, so the tag count strictly decreases
and `Client.handle` below always supplies sufficient fuel; the
fuel-exhausted branch is unreachable from it (`Client.handleF_mono`). -/
def Client.handleF : Nat → Client → Encoded → Option Context → Client × Option (List Event)
  | 0, c, _, _ => (c, none)
  | fuel + 1, c, message, parent_context =>
    let lt := remove_tag "label" message.tags
    let bt := remove_tag "batch" lt.2
    let label_tag := lt.1
    let batch_tag := bt.1
    let msg : Encoded := { message with tags := bt.2 }
    let resolved := resolve_context parent_context label_tag batch_tag c.labels c.batches
    let context := resolved.1
    let c1 : Client := { c with labels := resolved.2 }
    match msg.command with
    | .BATCH bparam _ =>
      match bparam.data with
      | [] => (c1, none)
      | symbol :: restChars =>
        let reference := String.mk restChars
        if symbol = '+' then
          ({ c1 with batches := mapInsert reference (Batch.new context) c1.batches }, none)
        else if symbol = '-' then
          let r := assocRemove reference c1.batches
          match r.1 with
          | some finished =>
            let c2 := { c1 with batches := r.2 }
            match batch_tag with
            | some bt' =>
              match assocGet bt' c2.batches with
              | some _ =>
                ({ c2 with
                    batches := mapUpdate bt'
                      (fun b => { b with events := b.events ++ finished.events })
                      c2.batches },
                  none)
              | none => (c2, some finished.events)
            | none => (c2, some finished.events)
          | none => (c1, none)
        else (c1, none)
    | _ =>
      match batch_tag with
      | some btag =>
        let r := Client.handleF fuel c1 msg context
        match r.2 with
        | none => (r.1, none)
        | some events =>
          match assocGet btag r.1.batches with
          | some _ =>
            ({ r.1 with
                batches := mapUpdate btag
                  (fun b => { b with events := b.events ++ events })
                  r.1.batches },
              none)
          | none => (r.1, some events)
      | none => Client.handleRest c1 msg context

/-- The per-message protocol handler (`Client::handle`): one more unit of
fuel than the message has tags, which is always enough since each nested
hop consumes a tag. -/
def Client.handle (c : Client) (message : Encoded) (parent_context : Option Context) :
    Client × Option (List Event) :=
  Client.handleF (message.tags.length + 1) c message parent_context

/-- The inbound entry point (`Client::receive`): records whether this
message closes the reroute window, handles it, and clears the reroute
target afterwards if so. -/
def Client.receive (c : Client) (message : Encoded) : Client × List Event :=
  let sr := stop_reroute message.command
  let r := c.handle message none
  let events := r.2.getD []
  if sr then ({ r.1 with reroute_responses_to := none }, events)
  else (r.1, events)

/-- The outbound entry point (`Client::send`). The label the source draws
from a nanosecond clock (`generate_label`) is a parameter of the pure
model. Returns the new state and the message handed to the transport. -/
def Client.send (c : Client) (buffer : Buffer) (message : Encoded) (label : String) :
    Client × Encoded :=
  let step :=
    if c.supports_labels then
      let context := Context.new message buffer
      (({ c with labels := mapInsert label context c.labels } : Client),
        { message with tags := [⟨"label", some label⟩] })
    else (c, message)
  let c2 :=
    { step.1 with
      reroute_responses_to :=
        if start_reroute step.2.command then some buffer else none }
  (c2, step.2)

/-- Capabilities the supervisor may request (`irc::proto::Capability` as
used in `stream.rs`). -/
inductive Capability where
  | ServerTime
  | Batch
  | EchoMessage
  | Custom (s : String)
deriving DecidableEq, Repr

/-- The capability-string concatenation across CAP LS continuation lines
in `connect` (`format!("{str_caps} {cap_str}")` starting from the empty
string). -/
def concat_caps (lines : List String) : String :=
  lines.foldl (fun acc l => acc ++ " " ++ l) ""

/-- The requested-capability computation of `connect` (`stream.rs` lines
183-196): `server-time` and `batch` independently, the
echo-message/labeled-response pair only when both are advertised. -/
def requested_caps (str_caps : String) : List Capability :=
  let server_caps := splitSp str_caps
  (if server_caps.contains "server-time" then [Capability.ServerTime] else [])
    ++ (if server_caps.contains "batch" then [Capability.Batch] else [])
    ++ (if server_caps.contains "echo-message" && server_caps.contains "labeled-response"
        then [Capability.EchoMessage, Capability.Custom "labeled-response"]
        else [])

/-- The fixed reconnect delay of the supervisor (`RECONNECT_DELAY`),
in milliseconds. -/
def RECONNECT_DELAY : Nat := 10000

/-- The wait computed in the `Disconnected` arm of `run` (`stream.rs`
lines 73-79): `RECONNECT_DELAY.saturating_sub(last_retry.elapsed())`,
with the sleep skipped entirely when the remainder is zero. Durations are
in milliseconds. -/
def reconnect_wait (elapsed : Nat) : Nat :=
  RECONNECT_DELAY - elapsed

/-- Consistency of the cached flattened view with the membership map: the
state `Client::sync` establishes. -/
def Client.synced (c : Client) : Prop :=
  c.channels = c.chanmap.map Prod.fst
    ∧ c.users = c.chanmap.map (fun p => (p.1, sortUsers p.2))

/-- Sample users for the concrete witness states. -/
def aliceOper : User := ⟨"alice", none, none, [.Oper]⟩

/-- Sample user with no access level. -/
def bobPlain : User := ⟨"bob", none, none, []⟩

/-- Concrete session state joined to one channel with two members. -/
def cTwoUsers : Client :=
  { Client.new "me" with chanmap := [("#a", [bobPlain, aliceOper])] }

/-- Tag lists of the shape a labelled and/or batched message carries. -/
def tagsOf (ltag btag : Option String) : List Tag :=
  (match ltag with
    | some l => [⟨"label", some l⟩]
    | none => [])
    ++ (match btag with
    | some b => [⟨"batch", some b⟩]
    | none => [])

/-- Concrete buffer used by the echo-suppression witnesses. -/
def bufGeneral : Buffer := .channel "srv" "#general"

/-- Session state with one pending label mapped to a plain buffer context
and label support negotiated. -/
def cLabelled : Client :=
  { Client.new "me" with
    labels := [("L", Context.Buffer bufGeneral)]
    supports_labels := true }

/-- Echo of our own PRIVMSG, tagged with the pending label. -/
def echoMsg : Encoded :=
  ⟨[⟨"label", some "L"⟩], some (.nickname "me" "" ""), .PRIVMSG "#general" "hi"⟩

/-- Session state with one open batch carrying no context. -/
def cBatchOpen : Client :=
  { Client.new "me" with batches := [("B", Batch.new none)] }

/-- Echo of our own PRIVMSG, tagged into the open batch. -/
def echoBatchMsg : Encoded :=
  ⟨[⟨"batch", some "B"⟩], some (.nickname "me" "" ""), .PRIVMSG "#general" "hi"⟩

/-- Session state with one pending label mapped to a whois context. -/
def cWhoisLbl : Client :=
  { Client.new "me" with labels := [("L", Context.Whois bufGeneral)] }

/-- Echo of our own PRIVMSG, tagged with the whois label. -/
def echoWhoisMsg : Encoded :=
  ⟨[⟨"label", some "L"⟩], some (.nickname "me" "" ""), .PRIVMSG "#general" "hi"⟩

/-- Synced session state with alice (an operator) in #a and #b and bob in
#a, for the nick-propagation witness. -/
def cNick : Client :=
  Client.sync
    { Client.new "me" with
      chanmap := [("#a", [bobPlain, aliceOper]), ("#b", [aliceOper])] }

/-- NICK message renaming alice to the unused nickname carol. -/
def nickCarolMsg : Encoded := ⟨[], some (.nickname "alice" "" ""), .NICK "carol"⟩

/-- Synced session state where both alice and bob are members of #a, for
the nick-collision counterexample. -/
def cNickC : Client :=
  Client.sync
    { Client.new "me" with
      chanmap := [("#a", [aliceOper, bobPlain]), ("#b", [aliceOper])] }

/-- NICK message renaming alice onto the already-present nickname bob. -/
def nickBobMsg : Encoded := ⟨[], some (.nickname "alice" "" ""), .NICK "bob"⟩

/-- Concrete WHO send for the C1 witness. -/
def whoMsg : Encoded := ⟨[], none, .WHO none⟩

/-- Session state with the reroute target set at the witness buffer. -/
def cRerouting : Client :=
  { Client.new "me" with reroute_responses_to := some bufGeneral }

/-- Terminal numeric closing a WHO reroute window. -/
def endOfWho : Encoded := ⟨[], none, .Numeric .RPL_ENDOFWHO []⟩

/-- Message shape for the C8 witness: QUIT with no source at all. -/
def quitNoPrefix : Encoded := ⟨[], none, .QUIT none⟩

/-- PART naming a channel the session is not joined to, from another
user. -/
def partUnknown : Encoded := ⟨[], some (.nickname "bob" "" ""), .PART "#x" none⟩

/-- Concrete self-JOIN message for the C10 witness. -/
def joinSelfMsg : Encoded := ⟨[], some (.nickname "me" "" ""), .JOIN "#a" none⟩

section AssocLemmas

variable {α β : Type}

theorem assocGet_mapInsert_self (k : String) (v : α) (l : List (String × α)) :
    assocGet k (mapInsert k v l) = some v := by
  induction l with
  | nil => simp [mapInsert, assocGet]
  | cons p rest ih =>
    by_cases h : k = p.1 <;> simp [mapInsert, assocGet, h, ih]

theorem assocGet_mapInsert_ne (k k' : String) (v : α) (l : List (String × α))
    (h : k ≠ k') : assocGet k (mapInsert k' v l) = assocGet k l := by
  induction l with
  | nil => simp [mapInsert, assocGet, h]
  | cons p rest ih =>
    by_cases h1 : k' = p.1
    · subst h1
      simp [mapInsert, assocGet, h]
    · by_cases h2 : k = p.1 <;> simp [mapInsert, assocGet, h1, h2, ih]

theorem assocGet_mapUpdate_self (k : String) (f : α → α) (l : List (String × α)) :
    assocGet k (mapUpdate k f l) = (assocGet k l).map f := by
  induction l with
  | nil => simp [mapUpdate, assocGet]
  | cons p rest ih =>
    by_cases h : k = p.1 <;> simp [mapUpdate, assocGet, h, ih]

theorem assocGet_mapUpdate_ne (k k' : String) (f : α → α) (l : List (String × α))
    (h : k ≠ k') : assocGet k (mapUpdate k' f l) = assocGet k l := by
  induction l with
  | nil => simp [mapUpdate, assocGet]
  | cons p rest ih =>
    by_cases h1 : k' = p.1
    · subst h1
      simp [mapUpdate, assocGet, h]
    · by_cases h2 : k = p.1 <;> simp [mapUpdate, assocGet, h1, h2, ih]

theorem assocRemove_fst (k : String) (l : List (String × α)) :
    (assocRemove k l).1 = assocGet k l := by
  induction l with
  | nil => simp [assocRemove, assocGet]
  | cons p rest ih =>
    by_cases h : k = p.1 <;> simp [assocRemove, assocGet, h, ih]

theorem assocGet_eq_none_of_not_mem (k : String) (l : List (String × α))
    (h : k ∉ l.map Prod.fst) : assocGet k l = none := by
  induction l with
  | nil => simp [assocGet]
  | cons p rest ih =>
    simp only [List.map_cons, List.mem_cons, not_or] at h
    simp [assocGet, h.1, ih h.2]

theorem assocGet_assocRemove_self (k : String) (l : List (String × α))
    (hnodup : (l.map Prod.fst).Nodup) :
    assocGet k (assocRemove k l).2 = none := by
  induction l with
  | nil => simp [assocRemove, assocGet]
  | cons p rest ih =>
    simp only [List.map_cons, List.nodup_cons] at hnodup
    by_cases h : k = p.1
    · subst h
      simpa [assocRemove] using assocGet_eq_none_of_not_mem p.1 rest hnodup.1
    · simp [assocRemove, h, assocGet, ih hnodup.2]

theorem assocRemove_of_none (k : String) (l : List (String × α))
    (h : assocGet k l = none) : (assocRemove k l).2 = l := by
  induction l with
  | nil => simp [assocRemove]
  | cons p rest ih =>
    by_cases hk : k = p.1
    · simp [assocGet, hk] at h
    · simp only [assocGet, if_neg hk] at h
      simp [assocRemove, hk, ih h]

theorem assocGet_assocRemove_ne (k k' : String) (l : List (String × α))
    (h : k ≠ k') : assocGet k (assocRemove k' l).2 = assocGet k l := by
  induction l with
  | nil => simp [assocRemove, assocGet]
  | cons p rest ih =>
    by_cases h1 : k' = p.1
    · subst h1
      simp [assocRemove, assocGet, h]
    · by_cases h2 : k = p.1 <;> simp [assocRemove, assocGet, h1, h2, ih]

theorem assocGet_chanInsert_self (k : String) (v : α) (l : List (String × α)) :
    assocGet k (chanInsert k v l) = some v := by
  induction l with
  | nil => simp [chanInsert, assocGet]
  | cons p rest ih =>
    by_cases h : k = p.1
    · simp [chanInsert, assocGet, h]
    · by_cases h2 : k < p.1 <;> simp [chanInsert, assocGet, h, h2, ih]

theorem assocGet_chanInsert_ne (k k' : String) (v : α) (l : List (String × α))
    (h : k ≠ k') : assocGet k (chanInsert k' v l) = assocGet k l := by
  induction l with
  | nil => simp [chanInsert, assocGet, h]
  | cons p rest ih =>
    by_cases h1 : k' = p.1
    · subst h1
      simp [chanInsert, assocGet, h]
    · by_cases h3 : k' < p.1
      · simp only [chanInsert, if_neg h1, if_pos h3]
        simp [assocGet, h]
      · by_cases h2 : k = p.1 <;> simp [chanInsert, assocGet, h1, h2, h3, ih]

theorem assocGet_map_value (f : α → β) (k : String) (v : α) (l : List (String × α))
    (hnodup : (l.map Prod.fst).Nodup) (hmem : (k, v) ∈ l) :
    assocGet k (l.map (fun p => (p.1, f p.2))) = some (f v) := by
  induction l with
  | nil => cases hmem
  | cons p rest ih =>
    simp only [List.map_cons, List.nodup_cons] at hnodup
    rcases List.mem_cons.mp hmem with h | h
    · subst h
      simp [assocGet]
    · have hk : k ≠ p.1 := by
        intro hk
        subst hk
        exact hnodup.1 (List.mem_map.mpr ⟨(p.1, v), h, rfl⟩)
      simp [assocGet, hk, ih hnodup.2 h]

end AssocLemmas

theorem charsLe_total (a b : List Char) :
    charsLe a b = true ∨ charsLe b a = true := by
  induction a generalizing b with
  | nil => simp [charsLe]
  | cons x xs ih =>
    cases b with
    | nil => simp [charsLe]
    | cons y ys =>
      rcases Nat.lt_trichotomy x.toNat y.toNat with h | h | h
      · simp [charsLe, h]
      · have h1 : ¬x.toNat < y.toNat := by omega
        have h2 : ¬y.toNat < x.toNat := by omega
        simpa [charsLe, h1, h2] using ih ys
      · simp [charsLe, h]

theorem charsLe_trans {a b c : List Char}
    (hab : charsLe a b = true) (hbc : charsLe b c = true) :
    charsLe a c = true := by
  induction a generalizing b c with
  | nil => simp [charsLe]
  | cons x xs ih =>
    cases b with
    | nil => simp [charsLe] at hab
    | cons y ys =>
      cases c with
      | nil => simp [charsLe] at hbc
      | cons z zs =>
        simp only [charsLe] at hab hbc ⊢
        by_cases hxy : x.toNat < y.toNat
        · by_cases hyz : y.toNat < z.toNat
          · have hxz : x.toNat < z.toNat := by omega
            simp [hxz]
          · by_cases hzy : z.toNat < y.toNat
            · simp [hyz, hzy] at hbc
            · have hxz : x.toNat < z.toNat := by omega
              simp [hxz]
        · by_cases hyx : y.toNat < x.toNat
          · simp [hxy, hyx] at hab
          · by_cases hyz : y.toNat < z.toNat
            · have hxz : x.toNat < z.toNat := by omega
              simp [hxz]
            · by_cases hzy : z.toNat < y.toNat
              · simp [hyz, hzy] at hbc
              · have hxz : ¬x.toNat < z.toNat := by omega
                have hzx : ¬z.toNat < x.toNat := by omega
                simp only [hxy, hyx, if_neg, not_false_eq_true] at hab
                simp only [hyz, hzy, if_neg, not_false_eq_true] at hbc
                simp [hxz, hzx, ih hab hbc]

theorem nickLe_total (a b : String) : nickLe a b = true ∨ nickLe b a = true :=
  charsLe_total a.data b.data

theorem nickLe_trans {a b c : String}
    (hab : nickLe a b = true) (hbc : nickLe b c = true) : nickLe a c = true :=
  charsLe_trans hab hbc

theorem mk_data (s : String) : String.mk s.data = s := rfl

theorem append_data (a b : String) : (a ++ b).data = a.data ++ b.data := rfl

theorem insertSorted_perm (u : User) (l : List User) :
    List.Perm (insertSorted u l) (u :: l) := by
  induction l with
  | nil => simp [insertSorted]
  | cons v rest ih =>
    by_cases h : nickLe u.nickname v.nickname
    · simp [insertSorted, h]
    · simp only [insertSorted, if_neg h]
      exact (ih.cons v).trans (List.Perm.swap u v rest)

theorem sortUsers_perm (l : List User) : List.Perm (sortUsers l) l := by
  induction l with
  | nil => simp [sortUsers]
  | cons u rest ih =>
    simp only [sortUsers, List.foldr_cons]
    exact (insertSorted_perm u _).trans (ih.cons u)

theorem insertSorted_sorted (u : User) (l : List User)
    (h : l.Pairwise fun a b => nickLe a.nickname b.nickname = true) :
    (insertSorted u l).Pairwise fun a b => nickLe a.nickname b.nickname = true := by
  induction l with
  | nil => simp [insertSorted]
  | cons v rest ih =>
    rcases List.pairwise_cons.mp h with ⟨hv, hrest⟩
    by_cases hle : nickLe u.nickname v.nickname
    · simp only [insertSorted, if_pos hle]
      refine List.pairwise_cons.mpr ⟨?_, h⟩
      intro w hw
      rcases List.mem_cons.mp hw with hw | hw
      · exact hw ▸ hle
      · exact nickLe_trans hle (hv w hw)
    · simp only [insertSorted, if_neg hle]
      refine List.pairwise_cons.mpr ⟨?_, ih hrest⟩
      intro w hw
      have hvu : nickLe v.nickname u.nickname = true := by
        rcases nickLe_total u.nickname v.nickname with ht | ht
        · exact absurd ht hle
        · exact ht
      have hw' := (insertSorted_perm u rest).mem_iff.mp hw
      rcases List.mem_cons.mp hw' with hw' | hw'
      · exact hw' ▸ hvu
      · exact hv w hw'

theorem sortUsers_sorted (l : List User) :
    (sortUsers l).Pairwise fun a b => nickLe a.nickname b.nickname = true := by
  induction l with
  | nil => simp [sortUsers]
  | cons u rest ih => exact insertSorted_sorted u _ ih

theorem sortUsers_any (l : List User) (p : User → Bool) :
    (sortUsers l).any p = l.any p := by
  have h := sortUsers_perm l
  rcases hall : l.any p with _ | _
  · rw [List.any_eq_false] at hall ⊢
    intro u hu
    exact hall u (h.mem_iff.mp hu)
  · rw [List.any_eq_true] at hall ⊢
    rcases hall with ⟨u, hu, hp⟩
    exact ⟨u, h.mem_iff.mpr hu, hp⟩

theorem assocGet_mem {α : Type} (k : String) (v : α) (l : List (String × α))
    (h : assocGet k l = some v) : (k, v) ∈ l := by
  induction l with
  | nil => simp [assocGet] at h
  | cons p rest ih =>
    by_cases hk : k = p.1
    · subst hk
      simp [assocGet] at h
      subst h
      exact List.mem_cons_self _ _
    · simp only [assocGet, if_neg hk] at h
      exact List.mem_cons_of_mem _ (ih h)

theorem assocGet_of_mem_nodup {α : Type} (k : String) (v : α) (l : List (String × α))
    (hnodup : (l.map Prod.fst).Nodup) (hmem : (k, v) ∈ l) : assocGet k l = some v := by
  induction l with
  | nil => cases hmem
  | cons p rest ih =>
    simp only [List.map_cons, List.nodup_cons] at hnodup
    rcases List.mem_cons.mp hmem with h | h
    · subst h
      simp [assocGet]
    · have hk : k ≠ p.1 := by
        intro hk
        subst hk
        exact hnodup.1 (List.mem_map.mpr ⟨(p.1, v), h, rfl⟩)
      simp [assocGet, hk, ih hnodup.2 h]

theorem setTake_found (u0 : User) (l : List User)
    (h : l.any (fun v => nickEq v.nickname u0.nickname) = true) :
    ∃ s₁ u s₂, l = s₁ ++ u :: s₂
      ∧ (∀ v ∈ s₁, nickEq v.nickname u0.nickname = false)
      ∧ nickEq u.nickname u0.nickname = true
      ∧ setTake u0 l = (some u, s₁ ++ s₂) := by
  induction l with
  | nil => simp at h
  | cons v rest ih =>
    by_cases hv : nickEq v.nickname u0.nickname = true
    · exact ⟨[], v, rest, rfl, by simp, hv, by simp [setTake, hv]⟩
    · have h' : rest.any (fun w => nickEq w.nickname u0.nickname) = true := by
        rcases List.any_eq_true.mp h with ⟨w, hw, hpw⟩
        rcases List.mem_cons.mp hw with hw | hw
        · exact absurd (hw ▸ hpw) hv
        · exact List.any_eq_true.mpr ⟨w, hw, hpw⟩
      obtain ⟨s₁, u, s₂, heq, hs₁, hu, htake⟩ := ih h'
      refine ⟨v :: s₁, u, s₂, by simp [heq], ?_, hu, ?_⟩
      · intro w hw
        rcases List.mem_cons.mp hw with hw | hw
        · subst hw
          exact Bool.eq_false_iff.mpr hv
        · exact hs₁ w hw
      · simp [setTake, hv, htake]

theorem filter_cached (l : List (String × List User)) (q : User → Bool)
    (hnodup : (l.map Prod.fst).Nodup) :
    (l.map Prod.fst).filter
        (fun channel =>
          ((assocGet channel (l.map fun p => (p.1, sortUsers p.2))).getD []).any q)
      = (l.filter fun p => p.2.any q).map Prod.fst := by
  induction l with
  | nil => simp
  | cons p rest ih =>
    simp only [List.map_cons, List.nodup_cons] at hnodup
    obtain ⟨hp, hrest⟩ := hnodup
    have hcong : ∀ ch ∈ rest.map Prod.fst,
        ((assocGet ch ((p.1, sortUsers p.2) :: rest.map fun r => (r.1, sortUsers r.2))).getD
            []).any q
          = ((assocGet ch (rest.map fun r => (r.1, sortUsers r.2))).getD []).any q := by
      intro ch hch
      have hne : ch ≠ p.1 := by
        intro e
        exact hp (e ▸ hch)
      simp [assocGet, hne]
    simp only [List.map_cons, List.filter_cons]
    rw [List.filter_congr hcong, ih hrest]
    have hhead :
        ((assocGet p.1 ((p.1, sortUsers p.2) :: rest.map fun r => (r.1, sortUsers r.2))).getD
            []).any q = p.2.any q := by
      simp [assocGet, sortUsers_any]
    rw [hhead]
    by_cases hq : p.2.any q = true <;> simp [hq]

theorem user_channels_of_synced (c : Client) (hs : c.synced)
    (hnodup : (c.chanmap.map Prod.fst).Nodup) (nick : String) :
    c.user_channels nick
      = (c.chanmap.filter fun p => p.2.any fun v => nickEq v.nickname nick).map
          Prod.fst := by
  obtain ⟨hch, hus⟩ := hs
  unfold Client.user_channels Client.users_of
  rw [hch, hus]
  exact filter_cached c.chanmap _ hnodup

/-- C9: in the `Disconnected` supervisor state the wait before the next
connection attempt is `max 0 (10s − elapsed_since(last_retry))` (durations
in milliseconds): saturating subtraction never oversleeps and never goes
negative, no attempt begins before the delay has fully elapsed, and
entering the state 12s after the last retry waits exactly zero. -/
theorem C9_reconnect_wait :
    (∀ elapsed : Nat,
        (reconnect_wait elapsed : Int) = max 0 ((RECONNECT_DELAY : Int) - elapsed))
      ∧ (∀ elapsed : Nat, RECONNECT_DELAY ≤ elapsed + reconnect_wait elapsed)
      ∧ reconnect_wait 12000 = 0 := by
  refine ⟨?_, ?_, by decide⟩
  · intro elapsed
    simp only [reconnect_wait, RECONNECT_DELAY]
    omega
  · intro elapsed
    simp only [reconnect_wait, RECONNECT_DELAY]
    omega

/-- C7: the requested capability set contains `server-time` iff advertised,
`batch` iff advertised, and the `echo-message`/`labeled-response` pair iff
both are advertised (each is requested exactly when the other is); a server
advertising exactly `server-time batch` on a single CAP LS line yields the
requested set `{server-time, batch}`. -/
theorem C7_cap_negotiation :
    (∀ s : String,
        (Capability.ServerTime ∈ requested_caps s ↔ "server-time" ∈ splitSp s)
          ∧ (Capability.Batch ∈ requested_caps s ↔ "batch" ∈ splitSp s)
          ∧ ((Capability.EchoMessage ∈ requested_caps s
                ∧ Capability.Custom "labeled-response" ∈ requested_caps s)
              ↔ ("echo-message" ∈ splitSp s ∧ "labeled-response" ∈ splitSp s))
          ∧ (Capability.EchoMessage ∈ requested_caps s
              ↔ Capability.Custom "labeled-response" ∈ requested_caps s))
      ∧ requested_caps (concat_caps ["server-time batch"])
          = [Capability.ServerTime, Capability.Batch] := by
  refine ⟨?_, by decide⟩
  intro s
  refine ⟨?_, ?_, ?_, ?_⟩ <;>
    · simp only [requested_caps]
      split <;> split <;> split <;>
        simp_all [List.contains, List.elem_iff, Bool.and_eq_true]

/-- C6: after `sync()` the cached channel list is exactly the membership
map's key sequence in map order, the cached user list of every channel in
the map is a nickname-sorted permutation of that channel's member set, and
`sync()` leaves the membership map (and all non-cache state) untouched. -/
theorem C6_sync_consistency (c : Client)
    (hnodup : (c.chanmap.map Prod.fst).Nodup) :
    (c.sync).channels = c.chanmap.map Prod.fst
      ∧ (∀ ch s, (ch, s) ∈ c.chanmap →
          assocGet ch (c.sync).users = some (sortUsers s)
            ∧ List.Perm (sortUsers s) s
            ∧ (sortUsers s).Pairwise fun a b => nickLe a.nickname b.nickname = true)
      ∧ (c.sync).chanmap = c.chanmap
      ∧ (c.sync).labels = c.labels
      ∧ (c.sync).batches = c.batches
      ∧ (c.sync).resolved_nick = c.resolved_nick
      ∧ (c.sync).reroute_responses_to = c.reroute_responses_to
      ∧ (c.sync).supports_labels = c.supports_labels := by
  refine ⟨rfl, ?_, rfl, rfl, rfl, rfl, rfl, rfl⟩
  intro ch s hmem
  exact ⟨assocGet_map_value sortUsers ch s c.chanmap hnodup hmem,
    sortUsers_perm s, sortUsers_sorted s⟩

/-- Witness for C6 at a concrete two-member state. -/
theorem C6_sync_consistency_witness :
    (cTwoUsers.chanmap.map Prod.fst).Nodup
      ∧ (cTwoUsers.sync).channels = ["#a"]
      ∧ assocGet "#a" (cTwoUsers.sync).users = some [aliceOper, bobPlain] := by
  have hnodup : (cTwoUsers.chanmap.map Prod.fst).Nodup := by decide
  have h := C6_sync_consistency cTwoUsers hnodup
  refine ⟨hnodup, ?_, ?_⟩
  · rw [h.1]
    decide
  · rw [(h.2.1 "#a" [bobPlain, aliceOper] (by decide)).1]
    decide

/-- C10: handling a JOIN whose sender is the session's own nickname maps
that channel to a fresh empty membership set, discarding any previously
recorded members, and leaves every other channel's entry unchanged. -/
theorem C10_self_join_resets (c : Client) (ch : String) (keys : Option String)
    (n u h : String) (m : Encoded)
    (hcmd : m.command = .JOIN ch keys)
    (hpfx : m.pfx = some (.nickname n u h))
    (htags : m.tags = [])
    (hself : nickEq n c.nickname = true) :
    assocGet ch (c.receive m).1.chanmap = some []
      ∧ (∀ ch', ch' ≠ ch →
          assocGet ch' (c.receive m).1.chanmap = assocGet ch' c.chanmap) := by
  obtain ⟨tags, pfx, cmd⟩ := m
  simp only at hcmd hpfx htags
  subst hcmd hpfx htags
  simp only [Client.nickname] at hself
  constructor
  · simp [Client.receive, stop_reroute, Client.handle, Client.handleF, remove_tag,
      resolve_context, Client.handleRest, Encoded.user, User.new, Client.nickname,
      hself, assocGet_chanInsert_self]
  · intro ch' hne
    simp [Client.receive, stop_reroute, Client.handle, Client.handleF, remove_tag,
      resolve_context, Client.handleRest, Encoded.user, User.new, Client.nickname,
      hself, assocGet_chanInsert_ne ch' ch [] c.chanmap hne]

theorem handleF_nonbatch_none (fuel : Nat) (c : Client) (m : Encoded)
    (pc : Option Context)
    (hnb : ∀ p r, m.command ≠ Command.BATCH p r)
    (hbt : (remove_tag "batch" (remove_tag "label" m.tags).2).1 = none) :
    Client.handleF (fuel + 1) c m pc =
      Client.handleRest
        { c with
          labels :=
            (resolve_context pc (remove_tag "label" m.tags).1 none c.labels c.batches).2 }
        { m with tags := (remove_tag "batch" (remove_tag "label" m.tags).2).2 }
        (resolve_context pc (remove_tag "label" m.tags).1 none c.labels c.batches).1 := by
  cases hcm : m.command <;>
    first
    | exact absurd hcm (hnb _ _)
    | simp [Client.handleF, hcm, hbt]

theorem handleF_nonbatch_some (fuel : Nat) (c : Client) (m : Encoded)
    (pc : Option Context) (btag : String)
    (hnb : ∀ p r, m.command ≠ Command.BATCH p r)
    (hbt : (remove_tag "batch" (remove_tag "label" m.tags).2).1 = some btag) :
    Client.handleF (fuel + 1) c m pc =
      (let resolved :=
        resolve_context pc (remove_tag "label" m.tags).1 (some btag) c.labels c.batches
       let c1 : Client := { c with labels := resolved.2 }
       let msg : Encoded := { m with tags := (remove_tag "batch" (remove_tag "label" m.tags).2).2 }
       let r := Client.handleF fuel c1 msg resolved.1
       match r.2 with
       | none => (r.1, none)
       | some events =>
         match assocGet btag r.1.batches with
         | some _ =>
           ({ r.1 with
              batches := mapUpdate btag
                (fun b => { b with events := b.events ++ events }) r.1.batches },
             none)
         | none => (r.1, some events)) := by
  cases hcm : m.command <;>
    first
    | exact absurd hcm (hnb _ _)
    | simp [Client.handleF, hcm, hbt]

theorem handleRest_reroute (c : Client) (msg : Encoded) (context : Option Context) :
    ((c.handleRest msg context).1).reroute_responses_to = c.reroute_responses_to := by
  unfold Client.handleRest
  repeat' split <;> try rfl
  all_goals simp [apply_ite]

theorem handleF_reroute (fuel : Nat) (c : Client) (m : Encoded) (pc : Option Context) :
    ((Client.handleF fuel c m pc).1).reroute_responses_to = c.reroute_responses_to := by
  induction fuel generalizing c m pc with
  | zero => rfl
  | succ fuel ih =>
    simp only [Client.handleF]
    split
    · repeat' split <;> try rfl
    · split
      · split
        · exact ih _ _ _
        · split
          · exact ih _ _ _
          · exact ih _ _ _
      · exact handleRest_reroute _ _ _

theorem handleRest_self_echo (c : Client) (msg : Encoded)
    (context : Option Context) (t x n u h : String)
    (hcmd : msg.command = .PRIVMSG t x ∨ msg.command = .NOTICE t x)
    (hpfx : msg.pfx = some (.nickname n u h))
    (hself : nickEq n c.nickname = true) :
    (context = none →
        c.handleRest msg context = (c, some [.Single msg c.nickname]))
      ∧ (∀ b, context = some (.Buffer b) → c.handleRest msg context = (c, none))
      ∧ (∀ b, context = some (.Whois b) →
          c.handleRest msg context
            = (c, some [.WithTarget msg c.nickname (b.server_message_target none)])) := by
  refine ⟨?_, ?_, ?_⟩
  · intro hc
    subst hc
    rcases hcmd with hcmd | hcmd <;>
      simp [Client.handleRest, hcmd, Encoded.user, hpfx, User.new]
  · intro b hc
    subst hc
    rcases hcmd with hcmd | hcmd <;>
      simp [Client.handleRest, hcmd, Encoded.user, hpfx, User.new, Context.isWhois, hself]
  · intro b hc
    subst hc
    rcases hcmd with hcmd | hcmd <;>
      simp [Client.handleRest, hcmd, Encoded.user, hpfx, User.new, Context.isWhois,
        Context.buffer]

/-- C5 (amended): for a PRIVMSG/NOTICE whose sender is the session's own
nickname, a resolved `Buffer` context suppresses the message entirely
(zero events); a resolved `Whois` context redirects it as one `WithTarget`
event instead of suppressing; and when no context resolves and the message
does not name an open batch, exactly one `Single` event is emitted. -/
theorem C5_echo_suppression (c : Client) (t x n u h : String)
    (ltag btag : Option String) (m : Encoded)
    (hcmd : m.command = .PRIVMSG t x ∨ m.command = .NOTICE t x)
    (hpfx : m.pfx = some (.nickname n u h))
    (htags : m.tags = tagsOf ltag btag)
    (hself : nickEq n c.nickname = true) :
    (∀ ctx, (resolve_context none ltag btag c.labels c.batches).1 = some ctx →
        ((∃ b, ctx = Context.Buffer b) → (c.receive m).2 = [])
          ∧ (∀ b, ctx = Context.Whois b → btag = none →
              (c.receive m).2
                = [Event.WithTarget { m with tags := [] } c.nickname
                    (b.server_message_target none)]))
      ∧ ((resolve_context none ltag btag c.labels c.batches).1 = none →
          (∀ bt, btag = some bt → assocGet bt c.batches = none) →
          (c.receive m).2 = [Event.Single { m with tags := [] } c.nickname]) := by
  obtain ⟨tags, pfx, cmd⟩ := m
  simp only at hcmd hpfx htags
  subst hpfx htags
  have hself' : nickEq n (Client.nickname c) = true := hself
  simp only [Client.nickname] at hself'
  rcases ltag with _ | l <;> rcases btag with _ | bt
  · -- no label, no batch tag
    refine ⟨?_, ?_⟩
    · intro ctx hctx
      simp [resolve_context] at hctx
    · intro _ _
      rcases hcmd with h | h <;> subst h <;>
        simp [Client.receive, stop_reroute, Client.handle, Client.handleF, tagsOf,
          remove_tag, resolve_context, assocRemove_fst, Client.handleRest,
          Encoded.user, User.new, Client.nickname, Context.isWhois, Context.buffer,
          hself']
  · -- no label, batch tag bt
    rcases hB : assocGet bt c.batches with _ | batch
    · -- batch not open: context none, events emitted
      refine ⟨?_, ?_⟩
      · intro ctx hctx
        simp [resolve_context, hB] at hctx
      · intro _ _
        rcases hcmd with h | h <;> subst h <;>
          simp [Client.receive, stop_reroute, Client.handle, Client.handleF, tagsOf,
            remove_tag, resolve_context, assocRemove_fst, Client.handleRest,
            Encoded.user, User.new, Client.nickname, Context.isWhois, Context.buffer,
            hB, hself']
    · -- batch open with context batch.context
      refine ⟨?_, ?_⟩
      · intro ctx hctx
        have hctx' : batch.context = some ctx := by
          simpa [resolve_context, hB] using hctx
        refine ⟨?_, ?_⟩
        · rintro ⟨b, rfl⟩
          rcases hcmd with h | h <;> subst h <;>
            simp [Client.receive, stop_reroute, Client.handle, Client.handleF, tagsOf,
              remove_tag, resolve_context, assocRemove_fst, Client.handleRest,
              Encoded.user, User.new, Client.nickname, Context.isWhois, Context.buffer,
              hB, hctx', hself']
        · rintro b rfl hcon
          cases hcon
      · intro hnone hclosed
        exact absurd (hclosed bt rfl) (by simp [hB])
  · -- label l, no batch tag
    rcases hL : assocGet l c.labels with _ | ctx0
    · -- label not registered: context none
      refine ⟨?_, ?_⟩
      · intro ctx hctx
        simp [resolve_context, assocRemove_fst, hL] at hctx
      · intro _ _
        rcases hcmd with h | h <;> subst h <;>
          simp [Client.receive, stop_reroute, Client.handle, Client.handleF, tagsOf,
            remove_tag, resolve_context, assocRemove_fst, Client.handleRest,
            Encoded.user, User.new, Client.nickname, Context.isWhois, Context.buffer,
            hL, hself']
    · -- label registered with context ctx0
      refine ⟨?_, ?_⟩
      · intro ctx hctx
        have hctx0 : ctx0 = ctx := by
          simpa [resolve_context, assocRemove_fst, hL] using hctx
        subst hctx0
        refine ⟨?_, ?_⟩
        · rintro ⟨b, rfl⟩
          rcases hcmd with h | h <;> subst h <;>
            simp [Client.receive, stop_reroute, Client.handle, Client.handleF, tagsOf,
              remove_tag, resolve_context, assocRemove_fst, Client.handleRest,
              Encoded.user, User.new, Client.nickname, Context.isWhois, Context.buffer,
              hL, hself']
        · rintro b rfl _
          rcases hcmd with h | h <;> subst h <;>
            simp [Client.receive, stop_reroute, Client.handle, Client.handleF, tagsOf,
              remove_tag, resolve_context, assocRemove_fst, Client.handleRest,
              Encoded.user, User.new, Client.nickname, Context.isWhois, Context.buffer,
              hL, hself']
      · intro hctx
        simp [resolve_context, assocRemove_fst, hL] at hctx
  · -- label l and batch tag bt
    rcases hL : assocGet l c.labels with _ | ctx0
    · -- label not registered: fall back to batch context
      rcases hB : assocGet bt c.batches with _ | batch
      · refine ⟨?_, ?_⟩
        · intro ctx hctx
          simp [resolve_context, assocRemove_fst, hL, hB] at hctx
        · intro _ _
          rcases hcmd with h | h <;> subst h <;>
            simp [Client.receive, stop_reroute, Client.handle, Client.handleF, tagsOf,
              remove_tag, resolve_context, assocRemove_fst, Client.handleRest,
              Encoded.user, User.new, Client.nickname, Context.isWhois, Context.buffer,
              hL, hB, hself']
      · refine ⟨?_, ?_⟩
        · intro ctx hctx
          have hctx' : batch.context = some ctx := by
            simpa [resolve_context, assocRemove_fst, hL, hB] using hctx
          refine ⟨?_, ?_⟩
          · rintro ⟨b, rfl⟩
            rcases hcmd with h | h <;> subst h <;>
              simp [Client.receive, stop_reroute, Client.handle, Client.handleF, tagsOf,
                remove_tag, resolve_context, assocRemove_fst, Client.handleRest,
                Encoded.user, User.new, Client.nickname, Context.isWhois, Context.buffer,
                hL, hB, hctx', hself']
          · rintro b rfl hcon
            cases hcon
        · intro _ hclosed
          exact absurd (hclosed bt rfl) (by simp [hB])
    · -- label registered: label context wins
      refine ⟨?_, ?_⟩
      · intro ctx hctx
        have hctx0 : ctx0 = ctx := by
          simpa [resolve_context, assocRemove_fst, hL] using hctx
        subst hctx0
        refine ⟨?_, ?_⟩
        · rintro ⟨b, rfl⟩
          rcases hcmd with h | h <;> subst h <;>
            simp [Client.receive, stop_reroute, Client.handle, Client.handleF, tagsOf,
              remove_tag, resolve_context, assocRemove_fst, Client.handleRest,
              Encoded.user, User.new, Client.nickname, Context.isWhois, Context.buffer,
              hL, hself']
        · rintro b rfl hcon
          cases hcon
      · intro hctx
        simp [resolve_context, assocRemove_fst, hL] at hctx

/-- Witness for C5: a self-PRIVMSG whose label resolves to a buffer
context is suppressed. -/
theorem C5_echo_suppression_witness : (cLabelled.receive echoMsg).2 = [] :=
  ((C5_echo_suppression cLabelled "#general" "hi" "me" "" "" (some "L") none echoMsg
      (Or.inl rfl) rfl rfl (by decide)).1 (Context.Buffer bufGeneral) (by decide)).1
    ⟨bufGeneral, rfl⟩

/-- Counterexample for C5 as stated: a self-PRIVMSG tagged into an open
batch with no stored context resolves no context yet emits zero events
(the claim demands exactly one `Single`), and a self-PRIVMSG resolving a
whois context emits one `WithTarget` event (the claim demands zero
events). -/
theorem C5_counterexample :
    ((resolve_context none none (some "B") cBatchOpen.labels cBatchOpen.batches).1 = none
        ∧ (cBatchOpen.receive echoBatchMsg).2 = [])
      ∧ ((resolve_context none (some "L") none cWhoisLbl.labels cWhoisLbl.batches).1
            = some (Context.Whois bufGeneral)
          ∧ (cWhoisLbl.receive echoWhoisMsg).2
              = [Event.WithTarget ⟨[], some (.nickname "me" "" ""), .PRIVMSG "#general" "hi"⟩
                  "me" (bufGeneral.server_message_target none)]) := by
  refine ⟨⟨by decide, by decide⟩, by decide, by decide⟩

/-- C8 (amended): a NICK/QUIT/PART/JOIN without a user-shaped source and a
BATCH close with an unknown reference produce zero events and leave the
state untouched; a PART/JOIN naming an unknown channel from another user,
a channel MODE for an unknown channel, and a NAMREPLY for an unknown
channel leave the state untouched but still emit the normal `Single`
event; in every case the session state is unchanged, so subsequent
messages are processed as if the malformed one had not arrived. -/
theorem C8_malformed_messages (c : Client) (m : Encoded) (htags : m.tags = []) :
    (m.user = none →
        ((∃ s, m.command = .NICK s) ∨ (∃ s, m.command = .QUIT s)
            ∨ (∃ ch s, m.command = .PART ch s) ∨ (∃ ch s, m.command = .JOIN ch s)) →
        c.receive m = (c, []))
      ∧ (∀ pr rest ref, m.command = .BATCH pr rest → pr.data = '-' :: ref.data →
          assocGet ref c.batches = none → c.receive m = (c, []))
      ∧ (∀ ch com n u h, (m.command = .PART ch com ∨ m.command = .JOIN ch com) →
          m.pfx = some (.nickname n u h) → nickEq n c.nickname = false →
          assocGet ch c.chanmap = none →
          c.receive m = (c, [Event.Single m c.nickname]))
      ∧ (∀ tgt modes args, m.command = .MODE tgt (some modes) args →
          is_channel tgt = true → assocGet tgt c.chanmap = none →
          c.receive m = (c, [Event.Single m c.nickname]))
      ∧ (∀ args, m.command = .Numeric .RPL_NAMREPLY args → 3 < args.length →
          assocGet (args.getD 2 "") c.chanmap = none →
          c.reroute_responses_to = none →
          c.receive m = (c, [Event.Single m c.nickname])) := by
  obtain ⟨tags, pfx, cmd⟩ := m
  simp only at htags ⊢
  subst htags
  refine ⟨?_, ?_, ?_, ?_, ?_⟩
  · intro hu hcmds
    rcases pfx with _ | p
    · rcases hcmds with ⟨s, h⟩ | ⟨s, h⟩ | ⟨ch, s, h⟩ | ⟨ch, s, h⟩ <;> subst h <;>
        simp [Client.receive, stop_reroute, Client.handle, Client.handleF, remove_tag,
          resolve_context, Client.handleRest, Encoded.user]
    · rcases p with s | ⟨pn, pu, ph⟩
      · rcases hcmds with ⟨s', h⟩ | ⟨s', h⟩ | ⟨ch, s', h⟩ | ⟨ch, s', h⟩ <;> subst h <;>
          simp [Client.receive, stop_reroute, Client.handle, Client.handleF, remove_tag,
            resolve_context, Client.handleRest, Encoded.user]
      · simp [Encoded.user] at hu
  · intro pr rest ref hcmd hdata hget
    subst hcmd
    rcases pr with ⟨d⟩
    have hd : d = '-' :: ref.data := hdata
    subst hd
    have hmk : String.mk ref.data = ref := by
      cases ref
      rfl
    simp [Client.receive, stop_reroute, Client.handle, Client.handleF, remove_tag,
      resolve_context, hmk, assocRemove_fst, hget]
  · intro ch com n u h hcmd hpfx hother hget
    subst hpfx
    simp only [Client.nickname] at hother
    rcases hcmd with h' | h' <;> subst h' <;>
      simp [Client.receive, stop_reroute, Client.handle, Client.handleF, remove_tag,
        resolve_context, Client.handleRest, Encoded.user, User.new, Client.nickname,
        hother, hget]
  · intro tgt modes args hcmd hch hget
    subst hcmd
    simp [Client.receive, stop_reroute, Client.handle, Client.handleF, remove_tag,
      resolve_context, Client.handleRest, hch, hget]
  · intro args hcmd hlen hget hrr
    subst hcmd
    obtain ⟨cn, rn, cm, chs, us, lb, bb, rr, sl⟩ := c
    simp only at hrr hget
    subst hrr
    simp only [List.getD, List.get?_eq_getElem?] at hget
    simp [Client.receive, stop_reroute, Client.handle, Client.handleF, remove_tag,
      resolve_context, Client.handleRest, hlen, hget]

/-- C3: a send under label support registers its Context under the
generated label; the first resolution of that label consumes the stored
Context and removes the map entry; once absent, resolution leaves the map
unchanged and falls back to the batch tag (or nothing). Observably, two
self-echo PRIVMSGs both tagged with the same registered label produce zero
events then one Single event. -/
theorem C3_label_at_most_once (c : Client) (b : Buffer) (mSend : Encoded)
    (L : String)
    (hsup : c.supports_labels = true)
    (hnodup : (c.labels.map Prod.fst).Nodup) :
    (assocGet L ((c.send b mSend L).1).labels = some (Context.new mSend b))
      ∧ (∀ (ctx : Context) (btag : Option String),
          assocGet L c.labels = some ctx →
            (resolve_context none (some L) btag c.labels c.batches).1 = some ctx
              ∧ assocGet L (resolve_context none (some L) btag c.labels c.batches).2
                  = none)
      ∧ (∀ btag : Option String,
          assocGet L c.labels = none →
            (resolve_context none (some L) btag c.labels c.batches).2 = c.labels
              ∧ (resolve_context none (some L) btag c.labels c.batches).1
                  = btag.bind fun bq => (assocGet bq c.batches).bind Batch.context)
      ∧ (∀ (bq : Buffer) (t x n u h : String) (m : Encoded),
          assocGet L c.labels = some (Context.Buffer bq) →
          m.command = .PRIVMSG t x →
          m.pfx = some (.nickname n u h) →
          m.tags = [⟨"label", some L⟩] →
          nickEq n c.nickname = true →
          ((c.receive m).2 = []
            ∧ assocGet L ((c.receive m).1).labels = none
            ∧ (((c.receive m).1).receive m).2
                = [Event.Single { m with tags := [] } c.nickname])) := by
  refine ⟨?_, ?_, ?_, ?_⟩
  · simp [Client.send, hsup, assocGet_mapInsert_self]
  · intro ctx btag hL
    refine ⟨?_, ?_⟩
    · simp [resolve_context, assocRemove_fst, hL]
    · simp only [resolve_context, assocRemove_fst, hL]
      exact assocGet_assocRemove_self L c.labels hnodup
  · intro btag hL
    simp [resolve_context, assocRemove_fst, hL, assocRemove_of_none L c.labels hL]
  · intro bq t x n u h m hL hcmd hpfx htags hself
    obtain ⟨tags, pfx, cmd⟩ := m
    simp only at hcmd hpfx htags
    subst hcmd hpfx htags
    simp only [Client.nickname] at hself
    have hL2 : assocGet L (assocRemove L c.labels).2 = none :=
      assocGet_assocRemove_self L c.labels hnodup
    refine ⟨?_, ?_, ?_⟩ <;>
      simp [Client.receive, stop_reroute, Client.handle, Client.handleF, remove_tag,
        resolve_context, assocRemove_fst, Client.handleRest, Encoded.user, User.new,
        Client.nickname, Context.isWhois, hL, hL2, hself]

/-- Witness for C3: with label `L` registered to a buffer context, the
first tagged echo is suppressed and consumes the label, the second falls
through to a `Single`, and a send registers its context. -/
theorem C3_label_at_most_once_witness :
    assocGet "L" ((cLabelled.send bufGeneral echoMsg "L").1).labels
        = some (Context.new echoMsg bufGeneral)
      ∧ (cLabelled.receive echoMsg).2 = []
      ∧ assocGet "L" ((cLabelled.receive echoMsg).1).labels = none
      ∧ (((cLabelled.receive echoMsg).1).receive echoMsg).2
          = [Event.Single ⟨[], some (.nickname "me" "" ""), .PRIVMSG "#general" "hi"⟩
              "me"] := by
  have h := C3_label_at_most_once cLabelled bufGeneral echoMsg "L"
    (by decide) (by decide)
  have h4 := h.2.2.2 bufGeneral "#general" "hi" "me" "" "" echoMsg
    (by decide) rfl rfl rfl (by decide)
  exact ⟨h.1, h4.1, h4.2.1, h4.2.2⟩

/-- C4: opening batch B1, opening B2 nested inside it (batch tag naming
B1), feeding one message into B2, closing B2 (tagged into B1), then
closing B1 emits nothing for the first four messages; closing B1 emits
exactly the inner message's derived `Single` event, which was merged from
B2's accumulator into B1's at the nested close. -/
theorem C4_batch_nesting (c : Client) (B1 B2 t x : String) (pfx0 : Option Pfx)
    (h1 : assocGet B1 c.batches = none)
    (h2 : assocGet B2 c.batches = none)
    (hne : B1 ≠ B2) :
    (let m1 : Encoded := ⟨[], none, .BATCH ("+" ++ B1) []⟩
     let m2 : Encoded := ⟨[⟨"batch", some B1⟩], none, .BATCH ("+" ++ B2) []⟩
     let m3 : Encoded := ⟨[⟨"batch", some B2⟩], pfx0, .PRIVMSG t x⟩
     let m4 : Encoded := ⟨[⟨"batch", some B1⟩], none, .BATCH ("-" ++ B2) []⟩
     let m5 : Encoded := ⟨[], none, .BATCH ("-" ++ B1) []⟩
     let r1 := c.receive m1
     let r2 := r1.1.receive m2
     let r3 := r2.1.receive m3
     let r4 := r3.1.receive m4
     let r5 := r4.1.receive m5
     r1.2 = [] ∧ r2.2 = [] ∧ r3.2 = [] ∧ r4.2 = []
       ∧ r5.2 = [Event.Single ⟨[], pfx0, .PRIVMSG t x⟩ c.nickname]) := by
  have hne' : B2 ≠ B1 := hne.symm
  rcases pfx0 with _ | pf
  · refine ⟨?_, ?_, ?_, ?_, ?_⟩ <;>
      simp [Client.receive, stop_reroute, Client.handle, Client.handleF, remove_tag,
        resolve_context, Client.handleRest, Batch.new, mk_data, append_data,
        assocGet_mapInsert_self, assocGet_mapInsert_ne, assocGet_mapUpdate_self,
        assocGet_mapUpdate_ne, assocGet_assocRemove_ne, assocRemove_fst,
        Encoded.user, Client.nickname, h1, h2, hne, hne']
  · rcases pf with s | ⟨pn, pu, ph⟩ <;>
      refine ⟨?_, ?_, ?_, ?_, ?_⟩ <;>
      simp [Client.receive, stop_reroute, Client.handle, Client.handleF, remove_tag,
        resolve_context, Client.handleRest, Batch.new, mk_data, append_data,
        assocGet_mapInsert_self, assocGet_mapInsert_ne, assocGet_mapUpdate_self,
        assocGet_mapUpdate_ne, assocGet_assocRemove_ne, assocRemove_fst,
        Encoded.user, User.new, Client.nickname, h1, h2, hne, hne']

/-- Witness for C4 at a fresh session: the nested batch sequence over a
concrete PRIVMSG. -/
theorem C4_batch_nesting_witness :
    (((((((Client.new "me").receive
          ⟨[], none, .BATCH "+ref1" []⟩).1.receive
          ⟨[⟨"batch", some "ref1"⟩], none, .BATCH "+ref2" []⟩).1.receive
          ⟨[⟨"batch", some "ref2"⟩], some (.nickname "bob" "" ""), .PRIVMSG "#a" "hi"⟩).1.receive
          ⟨[⟨"batch", some "ref1"⟩], none, .BATCH "-ref2" []⟩).1.receive
          ⟨[], none, .BATCH "-ref1" []⟩).2)
      = [Event.Single ⟨[], some (.nickname "bob" "" ""), .PRIVMSG "#a" "hi"⟩ "me"] := by
  have h := C4_batch_nesting (Client.new "me") "ref1" "ref2" "#a" "hi"
    (some (.nickname "bob" "" "")) (by decide) (by decide) (by decide)
  exact h.2.2.2.2

/-- C2 (amended): with the cached view consistent with the membership map,
a NICK from a user present in exactly the channels {A, B} — provided no
member of any channel already holds the new nickname — replaces that
user's entry with the new nickname in both A's and B's membership sets,
preserving the entry's access levels and other fields, and emits exactly
one Nickname broadcast whose channel list is exactly [A, B]. -/
theorem C2_nick_propagation (c : Client) (A B newnick oldn un hn : String)
    (m : Encoded)
    (hcmd : m.command = .NICK newnick)
    (hpfx : m.pfx = some (.nickname oldn un hn))
    (htags : m.tags = [])
    (hsync : c.synced)
    (hnodup : (c.chanmap.map Prod.fst).Nodup)
    (hchans : (c.chanmap.filter fun p => p.2.any fun v => nickEq v.nickname oldn).map
        Prod.fst = [A, B])
    (hfresh : ∀ p ∈ c.chanmap, ∀ v ∈ p.2, nickEq v.nickname newnick = false) :
    (∀ ch s, ch ∈ ([A, B] : List String) → assocGet ch c.chanmap = some s →
        ∃ s₁ u s₂, s = s₁ ++ u :: s₂
          ∧ (∀ v ∈ s₁, nickEq v.nickname oldn = false)
          ∧ nickEq u.nickname oldn = true
          ∧ assocGet ch ((c.receive m).1).chanmap
              = some (s₁ ++ s₂ ++ [{ u with nickname := newnick }]))
      ∧ (c.receive m).2
          = [Event.Brodcast (.Nickname (User.new oldn (notEmpty un) (notEmpty hn))
              newnick (nickEq c.nickname oldn) [A, B])] := by
  obtain ⟨tags, pfx, cmd⟩ := m
  simp only at hcmd hpfx htags
  subst hcmd hpfx htags
  have hUC : ∀ c' : Client, c'.channels = c.channels → c'.users = c.users →
      c'.user_channels oldn = [A, B] := by
    intro c' h1 h2
    have hc : c'.user_channels oldn = c.user_channels oldn := by
      simp [Client.user_channels, Client.users_of, h1, h2]
    rw [hc, user_channels_of_synced c hsync hnodup oldn, hchans]
  constructor
  · intro ch s hch hget
    have hmem : (ch, s) ∈ c.chanmap := assocGet_mem ch s c.chanmap hget
    have hany : s.any (fun v => nickEq v.nickname oldn) = true := by
      rw [← hchans] at hch
      obtain ⟨pair, hpair, hfst⟩ := List.mem_map.mp hch
      have h1 := List.mem_filter.mp hpair
      have hps : pair = (ch, s) := by
        have h2 : assocGet ch c.chanmap = some pair.2 := by
          rw [← hfst]
          exact assocGet_of_mem_nodup pair.1 pair.2 c.chanmap hnodup (by simpa using h1.1)
        rw [hget] at h2
        obtain h3 := Option.some.inj h2
        obtain ⟨pf, ps⟩ := pair
        simp only at hfst h3
        simp [hfst, ← h3]
      rw [hps] at h1
      simpa using h1.2
    obtain ⟨s₁, u, s₂, heq, hs₁, hu, htake⟩ :=
      setTake_found (User.new oldn (notEmpty un) (notEmpty hn)) s
        (by simpa [User.new] using hany)
    refine ⟨s₁, u, s₂, heq, fun v hv => by simpa [User.new] using hs₁ v hv,
      by simpa [User.new] using hu, ?_⟩
    have hfr : ((s₁ ++ s₂).any fun v => nickEq v.nickname newnick) = false := by
      rw [List.any_eq_false]
      intro v hv
      have hvs : v ∈ s := by
        rw [heq]
        rcases List.mem_append.mp hv with h | h
        · exact List.mem_append.mpr (Or.inl h)
        · exact List.mem_append.mpr (Or.inr (List.mem_cons_of_mem _ h))
      simp [hfresh (ch, s) hmem v hvs]
    have hstate :
        ((c.receive ⟨[], some (.nickname oldn un hn), .NICK newnick⟩).1).chanmap
          = c.chanmap.map (fun p =>
              (p.1, renameUser (User.new oldn (notEmpty un) (notEmpty hn)) newnick p.2)) := by
      simp [Client.receive, stop_reroute, Client.handle, Client.handleF, remove_tag,
        resolve_context, Client.handleRest, Encoded.user, Client.nickname, apply_ite]
    rw [hstate,
      assocGet_map_value (renameUser (User.new oldn (notEmpty un) (notEmpty hn)) newnick)
        ch s c.chanmap hnodup hmem]
    simp [renameUser, htake, setInsert, hfr, User.with_nickname]
  · simp [Client.receive, stop_reroute, Client.handle, Client.handleF, remove_tag,
      resolve_context, Client.handleRest, Encoded.user, User.new, Client.nickname,
      apply_ite, hUC]

/-- Witness for C2: renaming alice to carol broadcasts exactly the two
channels and rewrites alice's operator entry in #a under the new name. -/
theorem C2_nick_propagation_witness :
    (cNick.receive nickCarolMsg).2
        = [Event.Brodcast (.Nickname (User.new "alice" (notEmpty "") (notEmpty ""))
            "carol" (nickEq cNick.nickname "alice") ["#a", "#b"])]
      ∧ assocGet "#a" ((cNick.receive nickCarolMsg).1).chanmap
          = some [bobPlain, { aliceOper with nickname := "carol" }] :=
  ⟨(C2_nick_propagation cNick "#a" "#b" "carol" "alice" "" "" nickCarolMsg rfl rfl rfl
      ⟨rfl, rfl⟩ (by decide) (by decide) (by decide)).2,
    by decide⟩

/-- Counterexample for C2 as stated: alice (an operator) is in exactly
{#a, #b}, but renaming her to "bob" — a nickname already held by a member
of #a — drops her entry from #a entirely (`HashSet::insert` keeps the
pre-existing bob), so no entry with the new nickname and her access level
exists there. -/
theorem C2_counterexample :
    cNickC.synced
      ∧ (cNickC.chanmap.filter fun p => p.2.any fun v => nickEq v.nickname "alice").map
          Prod.fst = ["#a", "#b"]
      ∧ assocGet "#a" ((cNickC.receive nickBobMsg).1).chanmap = some [bobPlain]
      ∧ ¬ (⟨"bob", none, none, [AccessLevel.Oper]⟩ : User)
          ∈ (assocGet "#a" ((cNickC.receive nickBobMsg).1).chanmap).getD [] := by
  refine ⟨⟨rfl, rfl⟩, by decide, by decide, by decide⟩

/-- C1: sending a WHO/WHOIS/WHOWAS command sets the reroute target to the
sending buffer; receiving any message that is not a terminal numeric
leaves the target in place (the handler itself never touches it); and
receiving a terminal numeric still redirects that very message to the
target buffer, clearing the target only afterwards. -/
theorem C1_reroute_window (c : Client) (b : Buffer) (m : Encoded) (l : String)
    (hm : start_reroute m.command = true) :
    ((c.send b m l).1.reroute_responses_to = some b)
      ∧ (∀ (c' : Client) (m' : Encoded), c'.reroute_responses_to = some b →
          stop_reroute m'.command = false →
          ((c'.receive m').1).reroute_responses_to = some b)
      ∧ (∀ (c' : Client) (m' : Encoded), c'.reroute_responses_to = some b →
          stop_reroute m'.command = true → m'.tags = [] →
          (c'.receive m').2
              = [Event.WithTarget m' c'.nickname (b.server_message_target none)]
            ∧ ((c'.receive m').1).reroute_responses_to = none) := by
  refine ⟨?_, ?_, ?_⟩
  · by_cases hs : c.supports_labels <;> simp [Client.send, hs, hm]
  · intro c' m' hro hstop
    simp only [Client.receive, hstop, Bool.false_eq_true, if_false]
    exact (handleF_reroute _ _ _ _).trans hro
  · intro c' m' hro hstop htags
    obtain ⟨tags, pfx, cmd⟩ := m'
    simp only at hstop htags ⊢
    subst htags
    cases hcm : cmd <;> rw [hcm] at hstop <;> simp [stop_reroute] at hstop
    rename_i num args
    subst hcm
    constructor
    · simp [Client.receive, stop_reroute, hstop, Client.handle, Client.handleF,
        remove_tag, resolve_context, Client.handleRest, Client.nickname, hro]
    · simp [Client.receive, stop_reroute, hstop]

/-- Witness for C1: a WHO send sets the target, and the terminal numeric
is itself redirected there before the target is cleared. -/
theorem C1_reroute_window_witness :
    (((Client.new "me").send bufGeneral whoMsg "1").1.reroute_responses_to
        = some bufGeneral)
      ∧ (cRerouting.receive endOfWho).2
          = [Event.WithTarget endOfWho "me" (bufGeneral.server_message_target none)]
      ∧ ((cRerouting.receive endOfWho).1).reroute_responses_to = none := by
  have h := C1_reroute_window (Client.new "me") bufGeneral whoMsg "1" rfl
  have h3 := h.2.2 cRerouting endOfWho rfl rfl rfl
  exact ⟨h.1, h3.1, h3.2⟩

/-- Witness for C8: a QUIT without the prefix needed to build a user
yields zero events and an unchanged state. -/
theorem C8_malformed_messages_witness :
    (Client.new "me").receive quitNoPrefix = (Client.new "me", []) :=
  (C8_malformed_messages (Client.new "me") quitNoPrefix rfl).1 rfl
    (Or.inr (Or.inl ⟨none, rfl⟩))

/-- Counterexample for C8 as stated: a PART naming a channel absent from
the membership map is not dropped silently — it still emits one `Single`
event (the claim demands zero events for that message). -/
theorem C8_counterexample :
    assocGet "#x" (Client.new "me").chanmap = none
      ∧ ((Client.new "me").receive partUnknown).2 = [Event.Single partUnknown "me"]
      ∧ ((Client.new "me").receive partUnknown).2.length = 1 := by
  refine ⟨by decide, by decide, by decide⟩

/-- Witness for C10: the channel already has a recorded member, and the
self-JOIN resets it to the empty set. -/
theorem C10_self_join_resets_witness :
    assocGet "#a" cTwoUsers.chanmap = some [bobPlain, aliceOper]
      ∧ assocGet "#a" (cTwoUsers.receive joinSelfMsg).1.chanmap = some [] :=
  ⟨by decide,
    (C10_self_join_resets cTwoUsers "#a" none "me" "" "" joinSelfMsg rfl rfl rfl
      (by decide)).1⟩

end Halloy
